import Mathlib

/-!
Verification of the n8n-nodes-leapter integration plugin.

This development shallowly embeds the runtime logic of the two node
implementations (`Leapter` in `src/nodes/Leapter/Leapter.node.ts` and
`LeapterTool` in `src/unnamed/part_003`) together with their shared
utilities (`resolveSchema`, `tryParseJson`, `sanitizeToolName`,
`deduplicateToolNames`, `openApiToZod`, `buildZodSchemaFromOperation`,
the tool-call routing of `LeapterTool.execute`, and the response
classification of both `execute` methods), and proves or refutes the
specified properties about them.

JavaScript runtime values are modelled by the `JsValue` inductive;
`undefined` is modelled by `Option.none` at lookup boundaries, and
JavaScript exceptions (`TypeError` from indexing into `undefined`,
thrown `NodeOperationError`s) by `Except String`.
-/

/-- A JSON-ish JavaScript runtime value.  Numbers are modelled as
integers (the code under verification never performs numeric arithmetic
on payload values, only truthiness tests and equality). -/
inductive JsValue where
  | null : JsValue
  | boolean : Bool → JsValue
  | num : Int → JsValue
  | str : String → JsValue
  | arr : List JsValue → JsValue
  | obj : List (String × JsValue) → JsValue

/-- JavaScript truthiness: `null`, `false`, `0` and `""` are falsy,
arrays and objects are always truthy. -/
def jsTruthy : JsValue → Bool
  | .null => false
  | .boolean b => b
  | .num n => n != 0
  | .str s => s ≠ ""
  | .arr _ => true
  | .obj _ => true

/-- Member lookup on a DEFINED, NON-NULL JavaScript value: an object
yields the named member or `undefined` (`none`); the remaining
primitives and arrays are boxed and yield `undefined` for the keys this
code uses.  Property access on `null` or `undefined` throws a
`TypeError` in JavaScript and is modelled at the access site instead:
`jsIndex` for the unguarded walk of the schema resolver, `jsChain` for
guarded `?.` access (where `null` legitimately short-circuits to
`undefined`). -/
def jsLookup : JsValue → String → Option JsValue
  | .obj fields, key => fields.lookup key
  | _, _ => none

/-- Truthiness of a possibly-`undefined` value (`undefined` is falsy). -/
def jsTruthyOpt : Option JsValue → Bool
  | some v => jsTruthy v
  | none => false

/-- Optional chaining `o?.[key]`: `undefined` and `null` short-circuit
to `undefined`, everything else is looked up as a property. -/
def jsChain : Option JsValue → String → Option JsValue
  | none, _ => none
  | some .null, _ => none
  | some v, key => jsLookup v key

/-- The entries of an object value (the model of `Object.entries`);
non-objects contribute no entries. -/
def objEntries : JsValue → List (String × JsValue)
  | .obj fields => fields
  | _ => []

/-- `xs.includes(key)` where `key` is a string: JavaScript `===` on a
string compares by value against string elements and is false against
elements of any other type. -/
def valIncludesStr (xs : List JsValue) (key : String) : Bool :=
  xs.any (fun x => match x with
    | .str s => s == key
    | _ => false)

/-!  ## The schema resolver (`resolveSchema`, utils)

`resolveSchema` strips a leading `#/` from the `$ref` string, splits on
`/`, and walks the spec document key by key with no existence checks:
`resolved = (resolved as Record<string, unknown>)[part]`.  Indexing into
`undefined` or into `null` throws a `TypeError`; a lookup that merely
misses yields `undefined` and the walk continues (or finishes)
silently.
-/

/-- Model of `s.replace('#/', '')`: JavaScript `String.replace` with a
string pattern removes only the first occurrence. -/
def dropHashSlash : List Char → List Char
  | '#' :: '/' :: rest => rest
  | c :: rest => c :: dropHashSlash rest
  | [] => []

/-- Left-to-right scan modelling `split('/')`. -/
def splitSlashGo (cur : List Char) : List Char → List (List Char)
  | [] => [cur.reverse]
  | c :: rest =>
      if c = '/' then cur.reverse :: splitSlashGo [] rest
      else splitSlashGo (c :: cur) rest

/-- The key path of a `$ref` string: strip the first `#/`, split on `/`. -/
def refParts (ref : String) : List String :=
  (splitSlashGo [] (dropHashSlash ref.data)).map String.mk

/-- One step of the reference walk, `resolved = resolved[part]`.
Indexing into `undefined` or into `null` throws a `TypeError`, exactly
as in JavaScript; indexing into any other value yields the member
(possibly `undefined`). -/
def jsIndex (cur : Option JsValue) (key : String) : Except String (Option JsValue) :=
  match cur with
  | none => .error "TypeError: cannot read properties of undefined"
  | some .null => .error "TypeError: cannot read properties of null"
  | some v => .ok (jsLookup v key)

/-- The full walk over the document root, `for (const part of refPath)`. -/
def walkFold (doc : JsValue) (parts : List String) : Except String (Option JsValue) :=
  parts.foldlM jsIndex (some doc)

/-- `resolveSchema(schema, spec)` from `utils` (also inlined verbatim in
`Leapter.node.ts`): if `schema.$ref` is truthy, walk the document along
the reference path with no existence checks and return whatever the walk
produced — possibly `undefined`; otherwise return the node unchanged. -/
def resolveSchema (schema spec : JsValue) : Except String (Option JsValue) :=
  match jsLookup schema "$ref" with
  | some (.str r) =>
      if r = "" then .ok (some schema)
      else walkFold spec (refParts r)
  | some v =>
      if jsTruthy v then .error "TypeError: ref is not a string"
      else .ok (some schema)
  | none => .ok (some schema)

/-!  ## Name sanitization and deduplication (utils) -/

/-- The characters matched by the JavaScript regex class `\s` (the
ASCII portion, which is all the node ever receives). -/
def isJsWs (c : Char) : Bool :=
  c = ' ' ∨ c = '\t' ∨ c = '\n' ∨ c = '\r' ∨ c = '\x0b' ∨ c = '\x0c'

/-- `replace(/\s+/g, '_')` scanned left to right: the flag records
whether the previous character was part of a whitespace run already
replaced by an underscore. -/
def collapseWsGo (prevWs : Bool) : List Char → List Char
  | [] => []
  | c :: rest =>
      if isJsWs c then
        if prevWs then collapseWsGo true rest
        else '_' :: collapseWsGo true rest
      else c :: collapseWsGo false rest

/-- `name.replace(/\s+/g, '_')`. -/
def collapseWs (l : List Char) : List Char :=
  collapseWsGo false l

/-- The character class `[a-z0-9_-]` kept by the second replace. -/
def isAllowedChar (c : Char) : Bool :=
  ('a' ≤ c ∧ c ≤ 'z') ∨ ('0' ≤ c ∧ c ≤ '9') ∨ c = '_' ∨ c = '-'

/-- `sanitizeToolName` (utils): lowercase, collapse whitespace runs to
single underscores, strip everything outside `[a-z0-9_-]`, truncate to
64 characters, and fall back to `'leapter_tool'` when empty. -/
def sanitizeToolName (name : String) : String :=
  let lowered := name.data.map Char.toLower
  let collapsed := collapseWs lowered
  let stripped := collapsed.filter isAllowedChar
  let sliced := String.mk (stripped.take 64)
  if sliced = "" then "leapter_tool" else sliced

/-- Counter lookup in the model of the `Map<string, number>` used by
`deduplicateToolNames` (missing keys count as zero, `?? 0`). -/
def getCount (counts : List (String × Nat)) (name : String) : Nat :=
  match counts.lookup name with
  | some n => n
  | none => 0

/-- Counter update, `counts.set(name, count + 1)`. -/
def setCount (counts : List (String × Nat)) (name : String) (n : Nat) :
    List (String × Nat) :=
  (name, n) :: counts.eraseP (fun kv => kv.1 == name)

/-- The loop body of `deduplicateToolNames`. -/
def dedupGo (counts : List (String × Nat)) : List String → List String
  | [] => []
  | name :: rest =>
      let c := getCount counts name
      let out := if c = 0 then name else String.mk ((name ++ "_" ++ toString c).data.take 64)
      out :: dedupGo (setCount counts name (c + 1)) rest

/-- `deduplicateToolNames` (utils): first occurrence unchanged, later
occurrences suffixed `_1`, `_2`, … and re-truncated to 64 characters. -/
def deduplicateToolNames (names : List String) : List String :=
  dedupGo [] names

/-!  ## Compound selector encoding (`fetchProjects` / selector split)

Projects are encoded as `projectId::specUrl::editorBaseUrl::projectName`
(`fetchProjects`, utils) and decoded with `value.split('::')` at every
consumer.  `jsSplitCC` models JavaScript `String.split('::')`: repeated
leftmost, non-overlapping matches.
-/

/-- Left-to-right scan for `split('::')`: `cur` accumulates the current
piece in reverse. -/
def splitGo (cur : List Char) : List Char → List (List Char)
  | [] => [cur.reverse]
  | [c] => [(c :: cur).reverse]
  | c :: c2 :: rest2 =>
      if c = ':' ∧ c2 = ':' then cur.reverse :: splitGo [] rest2
      else splitGo (c :: cur) (c2 :: rest2)

/-- `s.split('::')`. -/
def jsSplitCC (s : String) : List String :=
  (splitGo [] s.data).map String.mk

/-- The project selector encoding built in `fetchProjects`. -/
def encodeProjectValue (projectId specUrl editorBaseUrl projectName : String) : String :=
  projectId ++ "::" ++ specUrl ++ "::" ++ editorBaseUrl ++ "::" ++ projectName

/-- Whether a character list contains two adjacent colons (an occurrence
of the separator token). -/
def hasCC : List Char → Bool
  | c1 :: c2 :: rest => (c1 = ':' ∧ c2 = ':') ∨ hasCC (c2 :: rest)
  | _ => false

/-- Whether a character list ends with a colon. -/
def lastColon : List Char → Bool
  | [] => false
  | [c] => c = ':'
  | _ :: c :: rest => lastColon (c :: rest)

/-!  ## Run metadata and error extraction (both `execute` methods) -/

/-- Exact-key lookup in the response header map. -/
def headerLookup (headers : List (String × String)) (key : String) : Option String :=
  headers.lookup key

/-- JavaScript `a || b` on two possibly-`undefined` strings: `a` wins
exactly when it is a non-empty string. -/
def jsOrStr (a b : Option String) : Option String :=
  match a with
  | some s => if s = "" then b else some s
  | none => b

/-- The runId extraction shared verbatim by `Leapter.execute` and
`LeapterTool.execute`:
`responseHeaders['x-run-id'] || responseHeaders['X-Run-Id']` —
two exact-cased lookups, not a case-insensitive search. -/
def extractRunId (headers : List (String × String)) : Option String :=
  jsOrStr (headerLookup headers "x-run-id") (headerLookup headers "X-Run-Id")

/-- Attempt to match the regex `\/models\/([^/]+)\/runs` at the head of
the character list: the literal `/models/`, then a non-empty maximal run
of non-`/` characters (the capture), then the literal `/runs`. -/
def matchModelsAt (l : List Char) : Option (List Char) :=
  if "/models/".data.isPrefixOf l then
    let rest := l.drop 8
    let w := rest.takeWhile (fun c => c ≠ '/')
    if w ≠ [] ∧ "/runs".data.isPrefixOf (rest.drop w.length) then some w
    else none
  else none

/-- Leftmost-match scan of the unanchored regex over the whole string. -/
def scanModels : List Char → Option (List Char)
  | [] => none
  | c :: rest =>
      match matchModelsAt (c :: rest) with
      | some w => some w
      | none => scanModels rest

/-- `path.match(/\/models\/([^/]+)\/runs/)?.[1]`: the first capture of
the leftmost match, or `undefined` when the path does not match. -/
def modelIdOf (path : String) : Option String :=
  (scanModels path.data).map String.mk

/-- The editor link computed by `Leapter.execute`
(`Leapter.node.ts:674-677`):
`modelId ? editorBaseUrl + '/' + modelId : editorBaseUrl`. -/
def editorLinkNode (path editorBaseUrl : String) : String :=
  match modelIdOf path with
  | some modelId => editorBaseUrl ++ "/" ++ modelId
  | none => editorBaseUrl

/-- The editor link computed by `LeapterTool.execute`
(`part_003:809-812`): requires the path to match AND the stored
`editorBaseUrl` to be truthy and different from the literal string
`'undefined'`, and otherwise falls back to the EMPTY string. -/
def editorLinkTool (path editorBaseUrl : String) : String :=
  match modelIdOf path with
  | some modelId =>
      if editorBaseUrl ≠ "" ∧ editorBaseUrl ≠ "undefined" then
        editorBaseUrl ++ "/" ++ modelId
      else ""
  | none => ""

/-- The first truthy value in a list of possibly-`undefined` operands,
modelling a chain of `||`. -/
def firstTruthy : List (Option JsValue) → Option JsValue
  | [] => none
  | o :: rest =>
      match o with
      | some v => if jsTruthy v then some v else firstTruthy rest
      | none => firstTruthy rest

/-- The error-message extraction shared by both `execute` methods:
`body.detail || body.error || body.message ||
\`Request failed with status ${statusCode}\``.  A non-object body
contributes no fields (the tool node replaces it by `{}`; property
access on the primitives the other node can produce yields
`undefined`). -/
def extractErrorMessage (body : JsValue) (statusCode : Nat) : JsValue :=
  match firstTruthy [jsLookup body "detail", jsLookup body "error", jsLookup body "message"] with
  | some v => v
  | none => .str ("Request failed with status " ++ toString statusCode)

/-!  ## Visual-mode JSON coercion (`tryParseJson`, utils)

`tryParseJson` is parameterised by the parse function modelling the
JavaScript built-in `JSON.parse` (`none` = the parse threw, which the
source catches).  All properties below hold for every parse function.
-/

/-- `value.trim()` over the ASCII whitespace the node encounters. -/
def jsTrim (s : String) : String :=
  String.mk (((s.data.dropWhile isJsWs).reverse.dropWhile isJsWs).reverse)

/-- Whether the trimmed string syntactically looks like a JSON array or
object: starts/ends with matching `[` `]` or `{` `}`. -/
def looksJsonLike (l : List Char) : Bool :=
  match l.head?, l.getLast? with
  | some '[', some ']' => true
  | some h, some t => h = '\x7b' ∧ t = '\x7d'
  | _, _ => false

/-- `tryParseJson` (utils, also inlined in `Leapter.node.ts`):
non-strings pass through; a string whose trimmed form looks like a JSON
array/object is parsed, and on parse failure the ORIGINAL string is
returned with no error raised; all other strings pass through. -/
def tryParseJson (parse : String → Option JsValue) (value : JsValue) : JsValue :=
  match value with
  | .str s =>
      let trimmed := jsTrim s
      if looksJsonLike trimmed.data then
        match parse trimmed with
        | some parsed => parsed
        | none => .str s
      else .str s
  | v => v

/-!  ## System-field filtering (`LeapterTool.execute`, part_003) -/

/-- `SYSTEM_FIELDS` (part_003:516-521): keys injected by n8n into tool
input data, never blueprint arguments. -/
def SYSTEM_FIELDS : List String :=
  ["sessionId", "action", "chatInput", "toolCallId"]

/-- The tool-argument extraction of `LeapterTool.execute`
(part_003:632-637): every input entry whose key is not a system field,
in input order.  The resulting object is sent verbatim as the HTTP
request body (part_003:773). -/
def extractToolArgs (input : List (String × JsValue)) : List (String × JsValue) :=
  input.filter (fun kv => ¬ SYSTEM_FIELDS.contains kv.1)

/-!  ## Typed parameter projection (`openApiToZod` /
`buildZodSchemaFromOperation`, utils)

Zod schema values are modelled by the `ZodTy` inductive;
`zodType.optional()` and `zodType.describe(d)` are wrapper
constructors, so a value is "marked optional" exactly when its
outermost constructor is `optionalT`.  The recursion of the source is
unbounded (it can follow `$ref` jumps), so the model takes a fuel
parameter; all theorems quantify over every fuel value that produces a
result.
-/

/-- The Zod types the projector can build. -/
inductive ZodTy where
  | strT : ZodTy
  | numT : ZodTy
  | boolT : ZodTy
  | recordT : ZodTy
  | enumT : List JsValue → ZodTy
  | arrT : ZodTy → ZodTy
  | objT : List (String × ZodTy) → ZodTy
  | optionalT : ZodTy → ZodTy
  | describeT : String → ZodTy → ZodTy

/-- Whether a Zod type is marked optional (outermost `.optional()`). -/
def isOptionalT : ZodTy → Bool
  | .optionalT _ => true
  | _ => false

/-- The `required` array of a resolved schema node:
`resolved.required` when it is an array, with `?.includes(...) ?? false`
(and `|| []` at the top level) collapsing every other case to the empty
list. -/
def requiredArrOf (v : JsValue) : List JsValue :=
  match jsLookup v "required" with
  | some (.arr rs) => rs
  | _ => []

/-- The property loop shared by the object case of `openApiToZod` and
the top level of `buildZodSchemaFromOperation`: convert each property
with the recursion `f`, passing whether its name appears in the
governing `required` list. -/
def zodShapeGo (f : JsValue → Bool → Except String ZodTy) (reqs : List JsValue) :
    List (String × JsValue) → Except String (List (String × ZodTy))
  | [] => .ok []
  | (key, propSchema) :: rest => do
      let t ← f propSchema (valIncludesStr reqs key)
      let tail ← zodShapeGo f reqs rest
      .ok ((key, t) :: tail)

/-- `openApiToZod(schema, spec, required)` (utils:955-1006): resolve the
node, build the base Zod type by its `type` tag, attach the description
if present, and wrap in `.optional()` exactly when `required` is
false.  Dereferencing a dangling `$ref` makes the subsequent
`resolved.type` access throw. -/
def openApiToZod : Nat → JsValue → JsValue → Bool → Except String ZodTy
  | 0, _, _, _ => .error "recursion limit exceeded"
  | fuel + 1, schema, spec, required => do
      let ro ← resolveSchema schema spec
      match ro with
      | none => .error "TypeError: cannot read properties of undefined"
      | some resolved => do
          let base ←
            (match jsLookup resolved "type" with
             | some (.str "string") =>
                 (match jsLookup resolved "enum" with
                  | some (.arr (v :: vs)) => .ok (ZodTy.enumT (v :: vs))
                  | _ => .ok ZodTy.strT)
             | some (.str "integer") => .ok ZodTy.numT
             | some (.str "number") => .ok ZodTy.numT
             | some (.str "boolean") => .ok ZodTy.boolT
             | some (.str "array") =>
                 (match jsLookup resolved "items" with
                  | some items =>
                      if jsTruthy items then do
                        let itemTy ← openApiToZod fuel items spec true
                        .ok (ZodTy.arrT itemTy)
                      else .ok (ZodTy.arrT ZodTy.strT)
                  | none => .ok (ZodTy.arrT ZodTy.strT))
             | some (.str "object") =>
                 (match jsLookup resolved "properties" with
                  | some props =>
                      if jsTruthy props then do
                        let shape ← zodShapeGo (fun v r => openApiToZod fuel v spec r)
                          (requiredArrOf resolved) (objEntries props)
                        .ok (ZodTy.objT shape)
                      else .ok ZodTy.recordT
                  | none => .ok ZodTy.recordT)
             | _ => .ok ZodTy.strT)
          let withDesc :=
            match jsLookup resolved "description" with
            | some (.str d) => if d = "" then base else ZodTy.describeT d base
            | _ => base
          .ok (if required then withDesc else ZodTy.optionalT withDesc)

/-- The request-body schema node selected by
`operation.requestBody?.content?.['application/json']` followed by
`jsonContent?.schema`. -/
def bodySchemaOf (op : JsValue) : Option JsValue :=
  jsChain (jsChain (jsChain (some op) "requestBody") "content") "application/json"
    |> (jsChain · "schema")

/-- The `properties` entries of a resolved body schema,
`schema.properties || {}`. -/
def bodyPropsOf (resolved : JsValue) : List (String × JsValue) :=
  match jsLookup resolved "properties" with
  | some p => if jsTruthy p then objEntries p else []
  | none => []

/-- `buildZodSchemaFromOperation(operation, spec)` (utils:1180-1200):
empty shape when there is no (truthy) JSON body schema; otherwise
resolve it (a dangling `$ref` makes `schema.properties` throw) and
convert each top-level property, marking it required exactly when its
name appears in the schema's own `required` list. -/
def buildZodSchemaFromOperation (fuel : Nat) (op spec : JsValue) :
    Except String (List (String × ZodTy)) :=
  match bodySchemaOf op with
  | none => .ok []
  | some sv =>
      if jsTruthy sv then do
        let ro ← resolveSchema sv spec
        match ro with
        | none => .error "TypeError: cannot read properties of undefined"
        | some resolved =>
            zodShapeGo (fun v r => openApiToZod fuel v spec r)
              (requiredArrOf resolved) (bodyPropsOf resolved)
      else .ok []

/-!  ## Tool-call routing (`LeapterTool.execute`, part_003:674-760)

The scoring arithmetic (`score + score / size`) is carried out in `ℚ`;
the JavaScript original uses IEEE doubles, which agree with exact
rationals on every comparison the loop can make for realistic schema
sizes.
-/

/-- One candidate blueprint as collected by the discovery loop. -/
structure Blueprint where
  name : String
  path : String
  operationUrl : String
  schemaKeys : List String
deriving DecidableEq, Repr

/-- The weighted score of a candidate (part_003:733-743): the number of
input keys appearing among the blueprint's schema keys, plus the
fraction of the schema covered. -/
def weightedScoreOf (inputKeys : List String) (bp : Blueprint) : ℚ :=
  let score : ℚ := ((inputKeys.filter (fun k => bp.schemaKeys.contains k)).length : ℚ)
  score + score / (bp.schemaKeys.length : ℚ)

/-- The scoring loop (part_003:727-749): running best score starts at
`-1`, candidates with an empty schema are skipped, and a candidate
replaces the current match only on a STRICTLY greater weighted score. -/
def scoreLoop (inputKeys : List String) :
    List Blueprint → ℚ → Option Blueprint → Option Blueprint
  | [], _, matched => matched
  | bp :: rest, bestScore, matched =>
      if bp.schemaKeys.length = 0 then scoreLoop inputKeys rest bestScore matched
      else
        let w := weightedScoreOf inputKeys bp
        if bestScore < w then scoreLoop inputKeys rest w (some bp)
        else scoreLoop inputKeys rest bestScore matched

/-- The routing of `LeapterTool.execute` (part_003:713-751): strategy 1
matches a non-empty `action` against sanitized blueprint names
(`blueprints.find`); strategy 2 selects a single candidate
unconditionally, or runs the scoring loop over multiple candidates.
`none` means the item fails with the message listing all candidate
names. -/
def routeBlueprints (action : String) (inputKeys : List String)
    (blueprints : List Blueprint) : Option Blueprint :=
  let matched1 :=
    if action = "" then none
    else blueprints.find? (fun bp => bp.name == sanitizeToolName action)
  match matched1 with
  | some bp => some bp
  | none =>
      if blueprints.length = 1 then blueprints.head?
      else if 1 < blueprints.length then scoreLoop inputKeys blueprints (-1) none
      else none

/-- The blueprint display name, `operation.summary || operation.operationId
|| path.replace(/\//g, '_')` (string-valued fields; the `||` chain). -/
def blueprintNameOf (op : JsValue) (path : String) : String :=
  match jsLookup op "summary" with
  | some (.str s) =>
      if s = "" then
        match jsLookup op "operationId" with
        | some (.str i) => if i = "" then String.map (fun c => if c = '/' then '_' else c) path else i
        | _ => String.map (fun c => if c = '/' then '_' else c) path
      else s
  | _ =>
      match jsLookup op "operationId" with
      | some (.str i) => if i = "" then String.map (fun c => if c = '/' then '_' else c) path else i
      | _ => String.map (fun c => if c = '/' then '_' else c) path

/-- The schema-key collection of the discovery loop (part_003:688-703):
the top-level property names of the resolved JSON body schema, guarded
by `resolvedSchema?.properties` (a silently-`undefined` resolution
contributes no keys, but an intermediate `TypeError` propagates). -/
def schemaKeysOf (op spec : JsValue) : Except String (List String) :=
  match jsLookup op "requestBody" with
  | some rb =>
      if jsTruthy rb then
        match jsChain (jsChain (some rb) "content") "application/json" |> (jsChain · "schema") with
        | some rawSchema =>
            if jsTruthy rawSchema then do
              let ro ← resolveSchema rawSchema spec
              match ro with
              | some resolved =>
                  (match jsLookup resolved "properties" with
                   | some p => if jsTruthy p then .ok ((objEntries p).map Prod.fst) else .ok []
                   | none => .ok [])
              | none => .ok []
            else .ok []
        | none => .ok []
      else .ok []
  | none => .ok []

/-- Whether a path entry survives
`if (!operation || operation.deprecated) continue`. -/
def isCandidateEntry (item : JsValue) : Bool :=
  jsTruthyOpt (jsLookup item "post") ∧
    ¬ jsTruthyOpt (jsChain (jsLookup item "post") "deprecated")

/-- The candidate-collection loop of `LeapterTool.execute`
(part_003:682-711) over the entries of `spec.paths`. -/
def buildLoop (serverUrl : String) (spec : JsValue) :
    List (String × JsValue) → Except String (List Blueprint)
  | [] => .ok []
  | (path, item) :: rest =>
      if isCandidateEntry item then
        match jsLookup item "post" with
        | some op => do
            let keys ← schemaKeysOf op spec
            let tail ← buildLoop serverUrl spec rest
            .ok ({ name := sanitizeToolName (blueprintNameOf op path), path := path,
                   operationUrl := serverUrl ++ path, schemaKeys := keys } :: tail)
        | none => buildLoop serverUrl spec rest
      else buildLoop serverUrl spec rest

/-- The candidate list built by `LeapterTool.execute`: every
non-deprecated POST operation of `spec.paths`, in document order. -/
def buildBlueprints (serverUrl : String) (spec : JsValue) : Except String (List Blueprint) :=
  match jsLookup spec "paths" with
  | some (.obj entries) => buildLoop serverUrl spec entries
  | _ => .error "TypeError: spec.paths is not an object"

/-!  ## Specification-side definitions

The definitions in this section follow the WORDS of the specification
(claim-side restatements, deliberately formulated differently from the
source-side definitions above) and exist only to be compared with the
source-side definitions in refinement theorems.
-/

/-- Spec wording: "replace each whitespace run with a single
underscore", formulated by consuming a maximal whitespace run at once. -/
def claimCollapse : List Char → List Char
  | [] => []
  | c :: rest =>
      if isJsWs c then '_' :: claimCollapse (rest.dropWhile isJsWs)
      else c :: claimCollapse rest
termination_by l => l.length
decreasing_by
  · simp only [List.length_cons]
    exact Nat.lt_succ_of_le ((List.dropWhile_sublist _).length_le)
  · simp

/-- Spec wording of the sanitizer: lowercase, replace each whitespace
run with a single underscore, strip every character outside
`[a-z0-9_-]`, truncate to 64 characters, default when empty. -/
def claimSanitize (name : String) : String :=
  let steps := ((claimCollapse (name.data.map Char.toLower)).filter isAllowedChar).take 64
  if steps.isEmpty then "leapter_tool" else String.mk steps

/-- Spec wording of deduplication: a name is left unchanged when no
earlier occurrence of it exists, and otherwise receives `_k` where `k`
counts the earlier occurrences, re-truncated to 64 characters. -/
def claimDedupGo (seen : List String) : List String → List String
  | [] => []
  | name :: rest =>
      let k := seen.count name
      (if k = 0 then name else String.mk ((name ++ "_" ++ toString k).data.take 64))
        :: claimDedupGo (seen ++ [name]) rest

/-- Spec wording of `deduplicateToolNames`. -/
def claimDedup (names : List String) : List String :=
  claimDedupGo [] names

/-- Spec wording of the disambiguation score:
`|input_keys ∩ candidate_keys| + |input_keys ∩ candidate_keys| /
|candidate_keys|`, with the intersection and sizes taken over sets. -/
def claimScore (inputKeys : List String) (bp : Blueprint) : ℚ :=
  let overlap : ℚ := ((inputKeys.toFinset ∩ bp.schemaKeys.toFinset).card : ℚ)
  overlap + overlap / ((bp.schemaKeys.toFinset.card : ℚ))

/-- Maximum of a list of rationals, `none` on the empty list. -/
def listMaxQ : List ℚ → Option ℚ
  | [] => none
  | x :: xs =>
      match listMaxQ xs with
      | none => some x
      | some m => some (max x m)

/-- Spec wording of the scoring path: candidates with a non-empty set
of schema property names are scored, the highest score wins, and ties
are broken by encounter order (the first candidate reaching the maximum
is selected). -/
def claimSelect (inputKeys : List String) (blueprints : List Blueprint) : Option Blueprint :=
  let cands := blueprints.filter (fun bp => ¬ bp.schemaKeys.toFinset = ∅)
  match listMaxQ (cands.map (claimScore inputKeys)) with
  | none => none
  | some m => cands.find? (fun bp => claimScore inputKeys bp == m)

/-- Spec wording of the whole decision procedure: exact sanitized
action-name match first; a sole candidate unconditionally second; the
scoring path otherwise; `none` when nothing is selected. -/
def routeClaim (action : String) (inputKeys : List String)
    (blueprints : List Blueprint) : Option Blueprint :=
  match (if action = "" then none
         else blueprints.find? (fun bp => bp.name == sanitizeToolName action)) with
  | some bp => some bp
  | none =>
      if blueprints.length = 1 then blueprints.head?
      else claimSelect inputKeys blueprints

/-!  ## Claim C2: dangling `$ref` behaviour of `resolveSchema` -/

/-- A schema node whose `$ref` points (through existing `components`
and `schemas` keys) at a missing final key. -/
def danglingNode : JsValue :=
  .obj [("$ref", .str "#/components/schemas/Missing")]

/-- A spec document with an empty `components.schemas` table. -/
def specDocC2 : JsValue :=
  .obj [("openapi", .str "3.0.0"), ("components", .obj [("schemas", .obj [])])]

/-- Claim C2 is false on the code: resolving a `$ref` whose final key is
missing raises nothing at all — `resolveSchema` silently returns
`undefined` (no `DanglingReferenceError` exists anywhere in the
source). -/
theorem resolveSchema_dangling_silent_cex :
    resolveSchema danglingNode specDocC2 = .ok none ∧
      ∀ e, resolveSchema danglingNode specDocC2 ≠ .error e := by
  refine ⟨rfl, ?_⟩
  intro e h
  rw [show resolveSchema danglingNode specDocC2 = .ok none from rfl] at h
  exact Except.noConfusion h

/-- Amended claim C2: `resolveSchema` performs an unchecked key walk.
When every key up to the last resolves to a defined, non-`null` value
and only the FINAL key is missing, it returns `undefined` silently (no
error of any kind); when the walk reaches `undefined` (a missing
intermediate key) or `null` before the end, the next lookup throws a
`TypeError` — never a `DanglingReferenceError`, which does not exist in
the code. -/
theorem resolveSchema_dangling_behavior :
    (∀ (doc : JsValue) (ps : List String) (k : String) (v : JsValue),
      walkFold doc ps = .ok (some v) → v ≠ .null → jsLookup v k = none →
        walkFold doc (ps ++ [k]) = .ok none) ∧
    (∀ (doc : JsValue) (ps : List String) (k : String),
      walkFold doc ps = .ok none →
        walkFold doc (ps ++ [k]) =
          .error "TypeError: cannot read properties of undefined") ∧
    (∀ (doc : JsValue) (ps : List String) (k : String),
      walkFold doc ps = .ok (some .null) →
        walkFold doc (ps ++ [k]) =
          .error "TypeError: cannot read properties of null") ∧
    (∀ (node doc : JsValue) (r : String),
      jsLookup node "$ref" = some (.str r) → r ≠ "" →
        resolveSchema node doc = walkFold doc (refParts r)) := by
  refine ⟨?_, ?_, ?_, ?_⟩
  · intro doc ps k v h hnn hk
    simp only [walkFold, List.foldlM_append] at *
    rw [h]
    cases v with
    | null => exact absurd rfl hnn
    | boolean b => simp [Bind.bind, Except.bind, jsIndex, hk, Pure.pure, Except.pure]
    | num n => simp [Bind.bind, Except.bind, jsIndex, hk, Pure.pure, Except.pure]
    | str s => simp [Bind.bind, Except.bind, jsIndex, hk, Pure.pure, Except.pure]
    | arr xs => simp [Bind.bind, Except.bind, jsIndex, hk, Pure.pure, Except.pure]
    | obj fs => simp [Bind.bind, Except.bind, jsIndex, hk, Pure.pure, Except.pure]
  · intro doc ps k h
    simp only [walkFold, List.foldlM_append] at *
    rw [h]
    simp [Bind.bind, Except.bind, jsIndex]
  · intro doc ps k h
    simp only [walkFold, List.foldlM_append] at *
    rw [h]
    simp [Bind.bind, Except.bind, jsIndex]
  · intro node doc r h hr
    simp [resolveSchema, h, hr]

/-- Witness for the amended claim C2: the concrete dangling final key
of the counterexample resolves to silent `undefined`; a `null` value
sitting on the reference path (`components.schemas = null`) makes the
next lookup throw a `TypeError`; and the walk is what `resolveSchema`
runs for a truthy `$ref`. -/
theorem resolveSchema_dangling_behavior_witness :
    walkFold specDocC2 (["components", "schemas"] ++ ["Missing"]) = .ok none ∧
      walkFold (.obj [("components", .obj [("schemas", .null)])])
          (["components", "schemas"] ++ ["Missing"]) =
        .error "TypeError: cannot read properties of null" ∧
      resolveSchema danglingNode specDocC2 =
        walkFold specDocC2 (refParts "#/components/schemas/Missing") := by
  refine ⟨?_, ?_, ?_⟩
  · exact resolveSchema_dangling_behavior.1 specDocC2 ["components", "schemas"]
      "Missing" (.obj []) rfl (fun h => JsValue.noConfusion h) rfl
  · exact resolveSchema_dangling_behavior.2.2.1
      (.obj [("components", .obj [("schemas", .null)])])
      ["components", "schemas"] "Missing" rfl
  · exact resolveSchema_dangling_behavior.2.2.2 danglingNode specDocC2
      "#/components/schemas/Missing" rfl (by decide)

/-!  ## Claim C3: runId extraction is not case-insensitive -/

/-- Claim C3 is false on the code: a response whose run-id header
arrives under the casing `X-RUN-ID` is not found — the code performs
exactly two exact-cased lookups, not a case-insensitive one. -/
theorem extractRunId_not_case_insensitive_cex :
    extractRunId [("X-RUN-ID", "abc123")] = none ∧
      (none : Option String) ≠ some "abc123" := by
  exact ⟨rfl, by simp⟩

/-- Amended claim C3: for responses with status < 400, the runId placed
in `_metadata` is obtained by exactly two exact-cased lookups,
`x-run-id` first and `X-Run-Id` second (first non-empty value wins, in
both the Leapter node and the Leapter Tool node, whose extraction
expressions are identical); a header arriving under any other casing is
not found. -/
theorem extractRunId_two_exact_lookups :
    (∀ (h : List (String × String)) (v : String),
      headerLookup h "x-run-id" = some v → v ≠ "" → extractRunId h = some v) ∧
    (∀ h : List (String × String),
      headerLookup h "x-run-id" = none →
        extractRunId h = headerLookup h "X-Run-Id") ∧
    (∀ h : List (String × String),
      headerLookup h "x-run-id" = none → headerLookup h "X-Run-Id" = none →
        extractRunId h = none) := by
  refine ⟨?_, ?_, ?_⟩
  · intro h v hv hne
    simp [extractRunId, jsOrStr, hv, hne]
  · intro h hnone
    simp [extractRunId, jsOrStr, hnone]
  · intro h h1 h2
    simp [extractRunId, jsOrStr, h1, h2]

/-- Witness for the amended claim C3: the lowercase arrival (the casing
the spec's example uses) is extracted, and an exotic casing is not. -/
theorem extractRunId_two_exact_lookups_witness :
    extractRunId [("x-run-id", "abc123")] = some "abc123" ∧
      extractRunId [("X-RUN-ID", "abc123")] = none := by
  constructor
  · exact extractRunId_two_exact_lookups.1 [("x-run-id", "abc123")] "abc123" rfl (by decide)
  · exact extractRunId_two_exact_lookups.2.2 [("X-RUN-ID", "abc123")] rfl rfl

/-!  ## Claim C4: editor-link fallback differs between the two nodes -/

/-- Claim C4 is false on the code: on a non-matching operation path the
Leapter Tool node's editor link falls back to the EMPTY string, not to
the bare editor base URL. -/
theorem editorLinkTool_fallback_cex :
    editorLinkTool "/other" "https://editor.example" = "" ∧
      "" ≠ "https://editor.example" := by
  exact ⟨rfl, by decide⟩

/-- Amended claim C4: when the operation path matches
`/models/<id>/runs`, both nodes append `/<id>` to the editor base URL
(the Tool node additionally requiring the stored base URL to be
non-empty and different from the literal string `'undefined'`); when
the path does not match, the Leapter node falls back to the bare base
URL but the Leapter Tool node falls back to the empty string. -/
theorem editorLink_fallbacks :
    (∀ path base modelId, modelIdOf path = some modelId →
      editorLinkNode path base = base ++ "/" ++ modelId) ∧
    (∀ path base modelId, modelIdOf path = some modelId →
      base ≠ "" → base ≠ "undefined" →
      editorLinkTool path base = base ++ "/" ++ modelId) ∧
    (∀ path base, modelIdOf path = none →
      editorLinkNode path base = base ∧ editorLinkTool path base = "") := by
  refine ⟨?_, ?_, ?_⟩
  · intro path base modelId h
    simp [editorLinkNode, h]
  · intro path base modelId h h1 h2
    simp [editorLinkTool, h, h1, h2]
  · intro path base h
    simp [editorLinkNode, editorLinkTool, h]

/-- Witness for the amended claim C4, at the spec's own example path
`/models/summarizer/runs` and at a non-matching path. -/
theorem editorLink_fallbacks_witness :
    editorLinkNode "/models/summarizer/runs" "https://editor.example" =
        "https://editor.example" ++ "/" ++ "summarizer" ∧
      editorLinkTool "/models/summarizer/runs" "https://editor.example" =
        "https://editor.example" ++ "/" ++ "summarizer" ∧
      editorLinkTool "/other" "https://editor.example" = "" := by
  refine ⟨?_, ?_, ?_⟩
  · exact editorLink_fallbacks.1 "/models/summarizer/runs" "https://editor.example"
      "summarizer" rfl
  · exact editorLink_fallbacks.2.1 "/models/summarizer/runs" "https://editor.example"
      "summarizer" rfl (by decide) (by decide)
  · exact (editorLink_fallbacks.2.2 "/other" "https://editor.example" rfl).2

/-!  ## Claim C5: error-message extraction -/

/-- Claim C5 is false on the code in two details: a `detail` field that
is PRESENT but falsy (the empty string) is skipped in favour of the
next field, because the source chains `||` (truthiness), not presence;
and the generic fallback is spelled `Request failed with status N`
(capital R), not `request failed with status N`. -/
theorem extractErrorMessage_truthiness_cex :
    extractErrorMessage (.obj [("detail", .str ""), ("error", .str "x")]) 404 = .str "x" ∧
      JsValue.str "x" ≠ .str "" ∧
      extractErrorMessage (.obj []) 404 = .str "Request failed with status 404" ∧
      "Request failed with status 404" ≠ "request failed with status 404" := by
  refine ⟨rfl, by simp, rfl, by decide⟩

/-- Amended claim C5: the surfaced failure message is the first TRUTHY
value among the body's `detail`, `error` and `message` fields in that
order (a present-but-falsy field is skipped), and otherwise the generic
message `Request failed with status N`; in particular a 404 response
with body `{"detail":"not found"}` yields exactly `not found`. -/
theorem extractErrorMessage_preference_order :
    (∀ (body : JsValue) (status : Nat) (v : JsValue),
      jsLookup body "detail" = some v → jsTruthy v = true →
        extractErrorMessage body status = v) ∧
    (∀ (body : JsValue) (status : Nat) (v : JsValue),
      jsTruthyOpt (jsLookup body "detail") = false →
      jsLookup body "error" = some v → jsTruthy v = true →
        extractErrorMessage body status = v) ∧
    (∀ (body : JsValue) (status : Nat) (v : JsValue),
      jsTruthyOpt (jsLookup body "detail") = false →
      jsTruthyOpt (jsLookup body "error") = false →
      jsLookup body "message" = some v → jsTruthy v = true →
        extractErrorMessage body status = v) ∧
    (∀ (body : JsValue) (status : Nat),
      jsTruthyOpt (jsLookup body "detail") = false →
      jsTruthyOpt (jsLookup body "error") = false →
      jsTruthyOpt (jsLookup body "message") = false →
        extractErrorMessage body status =
          .str ("Request failed with status " ++ toString status)) := by
  refine ⟨?_, ?_, ?_, ?_⟩
  · intro body status v hv ht
    simp [extractErrorMessage, firstTruthy, hv, ht]
  · intro body status v hd hv ht
    cases hdl : jsLookup body "detail" with
    | none => simp [extractErrorMessage, firstTruthy, hdl, hv, ht]
    | some d =>
        rw [hdl] at hd
        simp only [jsTruthyOpt] at hd
        simp [extractErrorMessage, firstTruthy, hdl, hd, hv, ht]
  · intro body status v hd he hv ht
    cases hdl : jsLookup body "detail" with
    | none =>
        cases hel : jsLookup body "error" with
        | none => simp [extractErrorMessage, firstTruthy, hdl, hel, hv, ht]
        | some e =>
            rw [hel] at he
            simp only [jsTruthyOpt] at he
            simp [extractErrorMessage, firstTruthy, hdl, hel, he, hv, ht]
    | some d =>
        rw [hdl] at hd
        simp only [jsTruthyOpt] at hd
        cases hel : jsLookup body "error" with
        | none => simp [extractErrorMessage, firstTruthy, hdl, hd, hel, hv, ht]
        | some e =>
            rw [hel] at he
            simp only [jsTruthyOpt] at he
            simp [extractErrorMessage, firstTruthy, hdl, hd, hel, he, hv, ht]
  · intro body status hd he hm
    cases hdl : jsLookup body "detail" with
    | none =>
        cases hel : jsLookup body "error" with
        | none =>
            cases hml : jsLookup body "message" with
            | none => simp [extractErrorMessage, firstTruthy, hdl, hel, hml]
            | some m =>
                rw [hml] at hm
                simp only [jsTruthyOpt] at hm
                simp [extractErrorMessage, firstTruthy, hdl, hel, hml, hm]
        | some e =>
            rw [hel] at he
            simp only [jsTruthyOpt] at he
            cases hml : jsLookup body "message" with
            | none => simp [extractErrorMessage, firstTruthy, hdl, hel, he, hml]
            | some m =>
                rw [hml] at hm
                simp only [jsTruthyOpt] at hm
                simp [extractErrorMessage, firstTruthy, hdl, hel, he, hml, hm]
    | some d =>
        rw [hdl] at hd
        simp only [jsTruthyOpt] at hd
        cases hel : jsLookup body "error" with
        | none =>
            cases hml : jsLookup body "message" with
            | none => simp [extractErrorMessage, firstTruthy, hdl, hd, hel, hml]
            | some m =>
                rw [hml] at hm
                simp only [jsTruthyOpt] at hm
                simp [extractErrorMessage, firstTruthy, hdl, hd, hel, hml, hm]
        | some e =>
            rw [hel] at he
            simp only [jsTruthyOpt] at he
            cases hml : jsLookup body "message" with
            | none => simp [extractErrorMessage, firstTruthy, hdl, hd, hel, he, hml]
            | some m =>
                rw [hml] at hm
                simp only [jsTruthyOpt] at hm
                simp [extractErrorMessage, firstTruthy, hdl, hd, hel, he, hml, hm]

/-- Witness for the amended claim C5: the spec's 404 example yields
exactly `not found`, and the fully-absent body yields the generic
message. -/
theorem extractErrorMessage_preference_order_witness :
    extractErrorMessage (.obj [("detail", .str "not found")]) 404 = .str "not found" ∧
      extractErrorMessage (.obj []) 404 = .str ("Request failed with status " ++ toString 404) := by
  constructor
  · exact extractErrorMessage_preference_order.1 (.obj [("detail", .str "not found")])
      404 (.str "not found") rfl (by decide)
  · exact extractErrorMessage_preference_order.2.2.2 (.obj []) 404 rfl rfl rfl

/-!  ## Claim C8: totality and pass-through of `tryParseJson` -/

/-- Claim C8: `tryParseJson` is total and never raises, for EVERY parse
function (i.e. whatever `JSON.parse` does): non-strings pass through
unchanged; a string whose trimmed form looks like a JSON array/object
is replaced by the parse result on success and returned as the ORIGINAL
string on parse failure (the thrown error is swallowed); every other
string passes through unchanged. -/
theorem tryParseJson_total_passthrough :
    (∀ (parse : String → Option JsValue) (v : JsValue),
      (∀ s, v ≠ .str s) → tryParseJson parse v = v) ∧
    (∀ (parse : String → Option JsValue) (s : String),
      looksJsonLike (jsTrim s).data = false →
        tryParseJson parse (.str s) = .str s) ∧
    (∀ (parse : String → Option JsValue) (s : String) (j : JsValue),
      looksJsonLike (jsTrim s).data = true → parse (jsTrim s) = some j →
        tryParseJson parse (.str s) = j) ∧
    (∀ (parse : String → Option JsValue) (s : String),
      looksJsonLike (jsTrim s).data = true → parse (jsTrim s) = none →
        tryParseJson parse (.str s) = .str s) := by
  refine ⟨?_, ?_, ?_, ?_⟩
  · intro parse v hv
    cases v with
    | str s => exact absurd rfl (hv s)
    | null => rfl
    | boolean b => rfl
    | num n => rfl
    | arr xs => rfl
    | obj fs => rfl
  · intro parse s h
    simp [tryParseJson, h]
  · intro parse s j h hp
    simp [tryParseJson, h, hp]
  · intro parse s h hp
    simp [tryParseJson, h, hp]

/-- Witness for claim C8, with concrete parse functions standing in for
`JSON.parse`: a failing parse of a bracket-like string returns the
original string, a succeeding parse returns the parsed value, and a
non-bracket string and a non-string value pass through untouched. -/
theorem tryParseJson_total_passthrough_witness :
    tryParseJson (fun _ => none) (.str " [1, 2] ") = .str " [1, 2] " ∧
      tryParseJson (fun _ => some (.arr [.num 1, .num 2])) (.str " [1, 2] ") =
        .arr [.num 1, .num 2] ∧
      tryParseJson (fun _ => none) (.str "hello") = .str "hello" ∧
      tryParseJson (fun _ => none) (.num 7) = .num 7 := by
  refine ⟨?_, ?_, ?_, ?_⟩
  · exact tryParseJson_total_passthrough.2.2.2 (fun _ => none) " [1, 2] " rfl rfl
  · exact tryParseJson_total_passthrough.2.2.1 (fun _ => some (.arr [.num 1, .num 2]))
      " [1, 2] " (.arr [.num 1, .num 2]) rfl rfl
  · exact tryParseJson_total_passthrough.2.1 (fun _ => none) "hello" rfl
  · exact tryParseJson_total_passthrough.1 (fun _ => none) (.num 7) (by intro s h; exact JsValue.noConfusion h)

/-!  ## Claim C10: system-field filtering of the tool request body -/

/-- Claim C10: the body sent by `LeapterTool.execute` is exactly the
input with the four system-injected keys (`sessionId`, `action`,
`chatInput`, `toolCallId`) removed: no entry with a system key survives
(in particular no `action` entry), every other entry is forwarded, and
nothing is added. -/
theorem extractToolArgs_removes_system_fields :
    (∀ (input : List (String × JsValue)) (k : String) (v : JsValue),
      k ∈ SYSTEM_FIELDS → (k, v) ∉ extractToolArgs input) ∧
    (∀ (input : List (String × JsValue)) (k : String) (v : JsValue),
      (k, v) ∈ input → k ∉ SYSTEM_FIELDS → (k, v) ∈ extractToolArgs input) ∧
    (∀ (input : List (String × JsValue)) (kv : String × JsValue),
      kv ∈ extractToolArgs input → kv ∈ input) ∧
    (∀ (input : List (String × JsValue)) (v : JsValue),
      ("action", v) ∉ extractToolArgs input) := by
  have hmem : ∀ (input : List (String × JsValue)) (kv : String × JsValue),
      kv ∈ extractToolArgs input ↔ kv ∈ input ∧ kv.1 ∉ SYSTEM_FIELDS := by
    intro input kv
    simp [extractToolArgs, List.mem_filter]
  refine ⟨?_, ?_, ?_, ?_⟩
  · intro input k v hk hmem2
    exact ((hmem input (k, v)).1 hmem2).2 hk
  · intro input k v hin hk
    exact (hmem input (k, v)).2 ⟨hin, hk⟩
  · intro input kv h
    exact ((hmem input kv).1 h).1
  · intro input v h
    exact ((hmem input ("action", v)).1 h).2 (by simp [SYSTEM_FIELDS])

/-- Witness for claim C10 at a concrete tool invocation: the `action`
and `sessionId` entries are removed, the payload entry survives,
and the resulting body is exactly the filtered input. -/
theorem extractToolArgs_removes_system_fields_witness :
    ("city", JsValue.str "Paris") ∈
        extractToolArgs [("action", .str "get_weather"), ("sessionId", .str "s1"),
          ("city", .str "Paris")] ∧
      ("action", JsValue.str "get_weather") ∉
        extractToolArgs [("action", .str "get_weather"), ("sessionId", .str "s1"),
          ("city", .str "Paris")] ∧
      extractToolArgs [("action", .str "get_weather"), ("sessionId", .str "s1"),
          ("city", .str "Paris")] = [("city", .str "Paris")] := by
  refine ⟨?_, ?_, rfl⟩
  · exact extractToolArgs_removes_system_fields.2.1 _ "city" (.str "Paris")
      (by simp) (by simp [SYSTEM_FIELDS])
  · exact extractToolArgs_removes_system_fields.2.2.2 _ (.str "get_weather")

/-!  ## Claim C7: name sanitization and deduplication -/

/-- Unfolding equation for the empty case of `claimCollapse`. -/
theorem claimCollapse_nil : claimCollapse [] = [] := by
  rw [claimCollapse.eq_def]

/-- Unfolding equation for the cons case of `claimCollapse`. -/
theorem claimCollapse_cons (c : Char) (rest : List Char) :
    claimCollapse (c :: rest) =
      if isJsWs c then '_' :: claimCollapse (rest.dropWhile isJsWs)
      else c :: claimCollapse rest := by
  rw [claimCollapse.eq_def]

/-- The left-to-right whitespace collapse of the source agrees with the
run-at-a-time collapse of the specification wording. -/
theorem collapseWsGo_eq_claim (l : List Char) :
    collapseWsGo false l = claimCollapse l ∧
      collapseWsGo true l = claimCollapse (l.dropWhile isJsWs) := by
  induction l with
  | nil => exact ⟨claimCollapse_nil.symm, claimCollapse_nil.symm⟩
  | cons c rest ih =>
      by_cases hc : isJsWs c
      · constructor
        · rw [show collapseWsGo false (c :: rest) = '_' :: collapseWsGo true rest by
            simp [collapseWsGo, hc]]
          rw [claimCollapse_cons]
          simp [hc, ih.2]
        · rw [show collapseWsGo true (c :: rest) = collapseWsGo true rest by
            simp [collapseWsGo, hc]]
          rw [List.dropWhile_cons]
          simp [hc, ih.2]
      · constructor
        · rw [show collapseWsGo false (c :: rest) = c :: collapseWsGo false rest by
            simp [collapseWsGo, hc]]
          rw [claimCollapse_cons]
          simp [hc, ih.1]
        · rw [show collapseWsGo true (c :: rest) = c :: collapseWsGo false rest by
            simp [collapseWsGo, hc]]
          rw [List.dropWhile_cons]
          simp only [hc, Bool.false_eq_true, if_false]
          rw [claimCollapse_cons]
          simp [hc, ih.1]

/-- The sanitizer agrees with the specification wording step by step. -/
theorem sanitizeToolName_eq_claim (s : String) : sanitizeToolName s = claimSanitize s := by
  unfold sanitizeToolName claimSanitize collapseWs
  dsimp only
  rw [(collapseWsGo_eq_claim (s.data.map Char.toLower)).1]
  by_cases h : ((claimCollapse (s.data.map Char.toLower)).filter isAllowedChar).take 64 = []
  · simp [h]
  · have h1 : String.mk (((claimCollapse (s.data.map Char.toLower)).filter isAllowedChar).take 64) ≠ "" := by
      simpa [String.ext_iff] using h
    simp [h, h1]

/-- Erasing the counter entry of a different name leaves a lookup
unchanged. -/
theorem lookup_eraseP_ne (counts : List (String × Nat)) (m n : String) (h : m ≠ n) :
    (counts.eraseP (fun kv => kv.1 == n)).lookup m = counts.lookup m := by
  induction counts with
  | nil => rfl
  | cons kv t ih =>
      obtain ⟨k, v⟩ := kv
      by_cases hk : k = n
      · rw [List.eraseP_cons_of_pos (by simp [hk])]
        subst hk
        simp [List.lookup, show (m == k) = false by simp [h]]
      · rw [List.eraseP_cons_of_neg (by simp [hk])]
        by_cases hm : m = k
        · simp [List.lookup, hm]
        · simp [List.lookup, show (m == k) = false by simp [hm], ih]

/-- Characterisation of the counter-map update. -/
theorem getCount_setCount (counts : List (String × Nat)) (n : String) (v : Nat) (m : String) :
    getCount (setCount counts n v) m = if m = n then v else getCount counts m := by
  unfold getCount setCount
  by_cases h : m = n
  · subst h
    simp [List.lookup]
  · simp [List.lookup, show (m == n) = false by simp [h], h,
      lookup_eraseP_ne counts m n h]

/-- The counter-map loop of the source computes, for each name, the
number of earlier occurrences — the formulation of the specification
wording. -/
theorem dedupGo_eq_claim (rest : List String) :
    ∀ (counts : List (String × Nat)) (seen : List String),
      (∀ m, getCount counts m = seen.count m) →
        dedupGo counts rest = claimDedupGo seen rest := by
  induction rest with
  | nil => intro counts seen h; rfl
  | cons name tail ih =>
      intro counts seen h
      rw [dedupGo, claimDedupGo]
      rw [h name]
      congr 1
      apply ih
      intro m
      rw [getCount_setCount]
      by_cases hm : m = name
      · subst hm
        simp [h m, List.count_append]
      · simp [hm, h m, List.count_append, Ne.symm hm]

/-- Claim C7: `sanitizeToolName` lowercases, replaces each whitespace
run with one underscore, strips characters outside `[a-z0-9_-]`,
truncates to 64 characters and defaults when empty (so `My Blueprint!`
becomes `my_blueprint`); `deduplicateToolNames` leaves first
occurrences unchanged and appends `_1`, `_2`, … to later occurrences in
encounter order, re-truncating to 64 characters (two `run`s become
`run` and `run_1`). -/
theorem sanitize_dedup_match_claim :
    (∀ s, sanitizeToolName s = claimSanitize s) ∧
      (∀ names, deduplicateToolNames names = claimDedup names) ∧
      sanitizeToolName "My Blueprint!" = "my_blueprint" ∧
      deduplicateToolNames ["run", "run"] = ["run", "run_1"] := by
  refine ⟨sanitizeToolName_eq_claim, ?_, rfl, rfl⟩
  intro names
  exact dedupGo_eq_claim names [] [] (fun m => rfl)

/-!  ## Claim C9: compound project selector round-trip -/

/-- Splitting a chunk free of `::` occurrences and not ending in a
colon, followed by a separator: the scan emits exactly the chunk. -/
theorem splitGo_chunk (a : List Char) :
    ∀ (cur rest : List Char), hasCC a = false → lastColon a = false →
      splitGo cur (a ++ ':' :: ':' :: rest) = (cur.reverse ++ a) :: splitGo [] rest := by
  induction a with
  | nil =>
      intro cur rest _ _
      simp [splitGo]
  | cons c a2 ih =>
      intro cur rest hcc hlc
      cases a2 with
      | nil =>
          have hc : c ≠ ':' := by
            intro h
            rw [h] at hlc
            simp [lastColon] at hlc
          simp only [List.cons_append, List.nil_append]
          rw [splitGo]
          rw [if_neg (by simp [hc])]
          rw [splitGo]
          rw [if_pos ⟨rfl, rfl⟩]
          simp
      | cons d a3 =>
          have hnd : ¬ (c = ':' ∧ d = ':') := by
            intro hh
            rw [hasCC] at hcc
            simp [hh.1, hh.2] at hcc
          have hcc2 : hasCC (d :: a3) = false := by
            rw [hasCC] at hcc
            simp at hcc
            exact hcc.2
          have hlc2 : lastColon (d :: a3) = false := by
            rw [lastColon] at hlc
            exact hlc
          simp only [List.cons_append]
          rw [splitGo]
          rw [if_neg hnd]
          have hrec := ih (c :: cur) rest hcc2 hlc2
          simp only [List.cons_append] at hrec
          rw [hrec]
          simp

/-- Splitting a final chunk with no `::` occurrence emits it whole. -/
theorem splitGo_noCC (a : List Char) :
    ∀ cur : List Char, hasCC a = false → splitGo cur a = [cur.reverse ++ a] := by
  induction a with
  | nil =>
      intro cur _
      simp [splitGo]
  | cons c a2 ih =>
      intro cur hcc
      cases a2 with
      | nil => simp [splitGo]
      | cons d a3 =>
          have hnd : ¬ (c = ':' ∧ d = ':') := by
            intro hh
            rw [hasCC] at hcc
            simp [hh.1, hh.2] at hcc
          have hcc2 : hasCC (d :: a3) = false := by
            rw [hasCC] at hcc
            simp at hcc
            exact hcc.2
          rw [splitGo]
          rw [if_neg hnd]
          rw [ih (c :: cur) hcc2]
          simp

/-- Claim C9 is false as stated: the component `a:` contains no
occurrence of the two-character separator `::`, yet the round trip is
not the identity — its trailing colon fuses with the separator, so the
decoder returns `a` and `:b` instead of `a:` and `b`. -/
theorem selector_roundtrip_cex :
    jsSplitCC (encodeProjectValue "a:" "b" "c" "d") = ["a", ":b", "c", "d"] ∧
      (["a", ":b", "c", "d"] : List String) ≠ ["a:", "b", "c", "d"] := by
  exact ⟨rfl, by decide⟩

/-- Amended claim C9: splitting the encoded selector on `::` recovers
the four components exactly when no component contains `::` AND none of
the first three components ends with a colon (a trailing colon
immediately precedes the separator and shifts the split; without the
strengthened precondition the round trip is not guaranteed). -/
theorem selector_roundtrip_amended (pid specUrl editorBaseUrl pname : String)
    (h1 : hasCC pid.data = false) (h2 : hasCC specUrl.data = false)
    (h3 : hasCC editorBaseUrl.data = false) (h4 : hasCC pname.data = false)
    (l1 : lastColon pid.data = false) (l2 : lastColon specUrl.data = false)
    (l3 : lastColon editorBaseUrl.data = false) :
    jsSplitCC (encodeProjectValue pid specUrl editorBaseUrl pname) =
      [pid, specUrl, editorBaseUrl, pname] := by
  unfold jsSplitCC encodeProjectValue
  simp only [String.data_append, show ("::" : String).data = [':', ':'] from rfl,
    List.append_assoc, List.cons_append, List.nil_append]
  rw [splitGo_chunk pid.data [] _ h1 l1]
  rw [splitGo_chunk specUrl.data [] _ h2 l2]
  rw [splitGo_chunk editorBaseUrl.data [] _ h3 l3]
  rw [splitGo_noCC pname.data [] h4]
  simp

/-- Witness for the amended claim C9 at a realistic project selector. -/
theorem selector_roundtrip_amended_witness :
    jsSplitCC (encodeProjectValue "p1" "https://lab.example/spec.json"
        "https://editor.example" "My Project") =
      ["p1", "https://lab.example/spec.json", "https://editor.example", "My Project"] :=
  selector_roundtrip_amended "p1" "https://lab.example/spec.json"
    "https://editor.example" "My Project" (by decide) (by decide) (by decide)
    (by decide) (by decide) (by decide) (by decide)

/-!  ## Claim C1: tool-call disambiguation -/

/-- `find?` respects pointwise-equal predicates over the list. -/
theorem find?_congr_mem {α : Type} (l : List α) (p q : α → Bool)
    (h : ∀ x ∈ l, p x = q x) : l.find? p = l.find? q := by
  induction l with
  | nil => rfl
  | cons a t ih =>
      rw [List.find?_cons, List.find?_cons, h a (by simp)]
      cases q a with
      | true => rfl
      | false => exact ih (fun x hx => h x (by simp [hx]))

/-- The maximum of a list of rationals is attained by a member. -/
theorem listMaxQ_mem (l : List ℚ) (m : ℚ) (h : listMaxQ l = some m) : m ∈ l := by
  induction l generalizing m with
  | nil => exact absurd h (by simp [listMaxQ])
  | cons x t ih =>
      rw [listMaxQ] at h
      cases ht : listMaxQ t with
      | none =>
          rw [ht] at h
          simp at h
          simp [h]
      | some m' =>
          rw [ht] at h
          simp at h
          rcases max_choice x m' with hc | hc
          · rw [hc] at h
            simp [h]
          · rw [hc] at h
            exact List.mem_cons_of_mem x (h ▸ ih m' ht)

/-- Weighted scores are never negative, so every scored candidate beats
the initial best score of `-1`. -/
theorem weightedScoreOf_nonneg (I : List String) (bp : Blueprint) :
    0 ≤ weightedScoreOf I bp := by
  unfold weightedScoreOf
  have h1 : (0 : ℚ) ≤ ((I.filter (fun k => bp.schemaKeys.contains k)).length : ℚ) := by
    positivity
  have h2 : (0 : ℚ) ≤ (bp.schemaKeys.length : ℚ) := by positivity
  exact add_nonneg h1 (div_nonneg h1 h2)

/-- The strict-improvement scoring loop selects the first candidate
(among those with a non-empty schema) attaining the maximal weighted
score, provided the maximum beats the running best; otherwise it keeps
the incoming match. -/
theorem scoreLoop_spec (I : List String) (l : List Blueprint) :
    ∀ (best : ℚ) (m : Option Blueprint),
      scoreLoop I l best m =
        match listMaxQ ((l.filter (fun bp => bp.schemaKeys.length != 0)).map
            (weightedScoreOf I)) with
        | none => m
        | some mx =>
            if best < mx then
              (l.filter (fun bp => bp.schemaKeys.length != 0)).find?
                (fun bp => weightedScoreOf I bp == mx)
            else m := by
  induction l with
  | nil => intro best m; rfl
  | cons bp rest ih =>
      intro best m
      by_cases hp : bp.schemaKeys.length = 0
      · rw [scoreLoop, if_pos hp, ih best m]
        rw [List.filter_cons_of_neg (by simp [hp])]
      · rw [scoreLoop, if_neg hp]
        rw [List.filter_cons_of_pos (by simp [hp])]
        rw [List.map_cons]
        rw [listMaxQ]
        set w := weightedScoreOf I bp with hw
        cases hrm : listMaxQ ((rest.filter (fun bp => bp.schemaKeys.length != 0)).map
            (weightedScoreOf I)) with
        | none =>
            by_cases hb : best < w
            · rw [if_pos hb, ih w (some bp), hrm]
              simp [List.find?_cons, hb]
            · rw [if_neg hb, ih best m, hrm]
              simp [hb]
        | some mx' =>
            by_cases hb : best < w
            · rw [if_pos hb, ih w (some bp), hrm]
              by_cases hw' : w < mx'
              · have hne : (w == mx') = false := by simp [ne_of_lt hw']
                simp [max_eq_right (le_of_lt hw'), hw', lt_trans hb hw', List.find?_cons, hne]
              · simp [max_eq_left (not_lt.mp hw'), hw', hb, List.find?_cons]
            · rw [if_neg hb, ih best m, hrm]
              have hwb : w ≤ best := not_lt.mp hb
              by_cases hb' : best < mx'
              · have hlt := lt_of_le_of_lt hwb hb'
                have hne : (w == mx') = false := by simp [ne_of_lt hlt]
                simp [max_eq_right (le_of_lt hlt), hb', List.find?_cons, hne]
              · have hmx : mx' ≤ best := not_lt.mp hb'
                have hnb : ¬ best < max w mx' := not_lt.mpr (max_le hwb hmx)
                simp [hb', hnb]

/-- When the input keys and the candidate's schema keys are duplicate
free (they come from `Object.keys` and a `Set` in the source), the
source's list-based score computes the claim's set-based formula. -/
theorem weightedScoreOf_eq_claim (I : List String) (bp : Blueprint)
    (hI : I.Nodup) (hK : bp.schemaKeys.Nodup) :
    weightedScoreOf I bp = claimScore I bp := by
  unfold weightedScoreOf claimScore
  dsimp only
  have hfilter : I.filter (fun k => bp.schemaKeys.contains k)
      = I.filter (fun k => decide (k ∈ bp.schemaKeys.toFinset)) := by
    apply List.filter_congr
    intro x _
    by_cases h : x ∈ bp.schemaKeys
    · simp [h]
    · simp [h]
  have hlen : ((I.filter (fun k => bp.schemaKeys.contains k)).length : ℚ)
      = (((I.toFinset ∩ bp.schemaKeys.toFinset).card : ℚ)) := by
    rw [hfilter]
    rw [← List.toFinset_card_of_nodup (hI.filter _)]
    rw [List.toFinset_filter]
    congr 2
    rw [← Finset.filter_mem_eq_inter]
    apply Finset.filter_congr
    intro x _
    simp
  have hcard : ((bp.schemaKeys.length : ℚ)) = ((bp.schemaKeys.toFinset.card : ℚ)) := by
    rw [List.toFinset_card_of_nodup hK]
  rw [hlen, hcard]

/-- The routing of the source follows the claim's decision procedure. -/
theorem routeBlueprints_eq_claim (action : String) (I : List String) (bps : List Blueprint)
    (hI : I.Nodup) (hK : ∀ bp ∈ bps, bp.schemaKeys.Nodup) :
    routeBlueprints action I bps = routeClaim action I bps := by
  unfold routeBlueprints routeClaim
  dsimp only
  cases hm : (if action = "" then none
      else bps.find? fun bp => bp.name == sanitizeToolName action) with
  | some bp => rfl
  | none =>
      by_cases hlen : bps.length = 1
      · simp [hlen]
      · simp only [hlen, if_false]
        by_cases hgt : 1 < bps.length
        · rw [if_pos hgt]
          rw [scoreLoop_spec]
          unfold claimSelect
          dsimp only
          have hfeq : bps.filter (fun bp => decide (¬ bp.schemaKeys.toFinset = ∅))
              = bps.filter (fun bp => bp.schemaKeys.length != 0) := by
            apply List.filter_congr
            intro x _
            by_cases h : x.schemaKeys = []
            · simp [h]
            · simp [h, List.toFinset_eq_empty_iff]
          rw [hfeq]
          have hmapeq : (bps.filter (fun bp => bp.schemaKeys.length != 0)).map (claimScore I)
              = (bps.filter (fun bp => bp.schemaKeys.length != 0)).map (weightedScoreOf I) := by
            apply List.map_congr_left
            intro x hx
            exact (weightedScoreOf_eq_claim I x hI (hK x (List.mem_of_mem_filter hx))).symm
          rw [hmapeq]
          cases hmx : listMaxQ ((bps.filter (fun bp => bp.schemaKeys.length != 0)).map
              (weightedScoreOf I)) with
          | none => rfl
          | some mx =>
              have hmem := listMaxQ_mem _ _ hmx
              obtain ⟨x, hx, hxe⟩ := List.mem_map.mp hmem
              have h0 : (0 : ℚ) ≤ mx := hxe ▸ weightedScoreOf_nonneg I x
              dsimp only
              rw [if_pos (lt_of_lt_of_le (show (-1 : ℚ) < 0 by norm_num) h0)]
              apply find?_congr_mem
              intro y hy
              rw [weightedScoreOf_eq_claim I y hI (hK y (List.mem_of_mem_filter hy))]
        · have hz : bps = [] := by
            cases bps with
            | nil => rfl
            | cons a t =>
                exfalso
                have : 1 < (a :: t).length ∨ (a :: t).length = 1 := by
                  simp only [List.length_cons]
                  omega
                rcases this with h | h
                · exact hgt h
                · exact hlen h
          subst hz
          simp [claimSelect, listMaxQ, hgt]

/-- The candidate-collection loop yields exactly the non-deprecated
POST path entries, in document order. -/
theorem buildLoop_paths (serverUrl : String) (spec : JsValue) (entries : List (String × JsValue)) :
    ∀ bps, buildLoop serverUrl spec entries = .ok bps →
      bps.map Blueprint.path = (entries.filter (fun kv => isCandidateEntry kv.2)).map Prod.fst := by
  induction entries with
  | nil =>
      intro bps h
      rw [buildLoop] at h
      cases h
      rfl
  | cons e rest ih =>
      obtain ⟨p, item⟩ := e
      intro bps h
      by_cases hc : isCandidateEntry item
      · rw [buildLoop, if_pos hc] at h
        cases jl : jsLookup item "post" with
        | none =>
            exfalso
            unfold isCandidateEntry at hc
            rw [jl] at hc
            simp [jsTruthyOpt] at hc
        | some op =>
            rw [jl] at h
            dsimp only at h
            cases hk : schemaKeysOf op spec with
            | error e =>
                rw [hk] at h
                simp [Bind.bind, Except.bind] at h
            | ok keys =>
                rw [hk] at h
                cases ht : buildLoop serverUrl spec rest with
                | error e =>
                    rw [ht] at h
                    simp [Bind.bind, Except.bind] at h
                | ok tail =>
                    rw [ht] at h
                    simp only [Bind.bind, Except.bind, Pure.pure, Except.pure] at h
                    cases h
                    rw [List.filter_cons_of_pos (by simpa using hc)]
                    simp only [List.map_cons]
                    rw [ih tail ht]
      · rw [buildLoop, if_neg hc] at h
        rw [List.filter_cons_of_neg (by simpa using hc)]
        exact ih bps h

/-- Claim C1: the tool-call disambiguation of `LeapterTool.execute`
follows exactly the claimed decision procedure — the candidate list is
the non-deprecated POST operations in document order, and the routing
(sanitized action-name match first; a sole candidate unconditionally;
otherwise the overlap-plus-coverage score over candidates with
non-empty schemas, first maximum winning; failure listing all
candidates otherwise) coincides with the specification-side procedure
`routeClaim`. -/
theorem toolRouting_follows_claim :
    (∀ (action : String) (inputKeys : List String) (blueprints : List Blueprint),
      inputKeys.Nodup → (∀ bp ∈ blueprints, bp.schemaKeys.Nodup) →
        routeBlueprints action inputKeys blueprints =
          routeClaim action inputKeys blueprints) ∧
    (∀ (serverUrl : String) (spec : JsValue) (entries : List (String × JsValue))
        (bps : List Blueprint),
      jsLookup spec "paths" = some (.obj entries) →
      buildBlueprints serverUrl spec = .ok bps →
        bps.map Blueprint.path =
          (entries.filter (fun kv => isCandidateEntry kv.2)).map Prod.fst) := by
  constructor
  · intro action I bps hI hK
    exact routeBlueprints_eq_claim action I bps hI hK
  · intro serverUrl spec entries bps hpaths h
    unfold buildBlueprints at h
    rw [hpaths] at h
    exact buildLoop_paths serverUrl spec entries bps h

/-- Witness for claim C1 at the spec's own example: candidates
`weather {city}` and `search {query}` with input keys `{city}` route to
`weather` (and the code and the claim procedures agree there). -/
theorem toolRouting_follows_claim_witness :
    routeBlueprints "" ["city"]
        [{ name := "weather", path := "/models/weather/runs",
           operationUrl := "u1", schemaKeys := ["city"] },
         { name := "search", path := "/models/search/runs",
           operationUrl := "u2", schemaKeys := ["query"] }] =
      routeClaim "" ["city"]
        [{ name := "weather", path := "/models/weather/runs",
           operationUrl := "u1", schemaKeys := ["city"] },
         { name := "search", path := "/models/search/runs",
           operationUrl := "u2", schemaKeys := ["query"] }] ∧
    routeBlueprints "" ["city"]
        [{ name := "weather", path := "/models/weather/runs",
           operationUrl := "u1", schemaKeys := ["city"] },
         { name := "search", path := "/models/search/runs",
           operationUrl := "u2", schemaKeys := ["query"] }] =
      some { name := "weather", path := "/models/weather/runs",
             operationUrl := "u1", schemaKeys := ["city"] } := by
  constructor
  · exact toolRouting_follows_claim.1 "" ["city"] _ (by decide) (by decide)
  · simp [routeBlueprints, scoreLoop, weightedScoreOf]
    norm_num

/-!  ## Claim C6: required/optional projection at every nesting depth -/

/-- Inversion for a successful `Except` bind. -/
theorem except_bind_ok {α β : Type} (e : Except String α) (f : α → Except String β) (b : β)
    (h : Except.bind e f = .ok b) : ∃ a, e = .ok a ∧ f a = .ok b := by
  cases e with
  | error s => exact absurd h (by simp [Except.bind])
  | ok a => exact ⟨a, rfl, by simpa [Except.bind] using h⟩

/-- Attaching a description never makes a type optional. -/
theorem isOptionalT_withDesc (resolved : JsValue) (base : ZodTy)
    (hb : isOptionalT base = false) :
    isOptionalT (match jsLookup resolved "description" with
      | some (.str d) => if d = "" then base else ZodTy.describeT d base
      | _ => base) = false := by
  cases hld : jsLookup resolved "description" with
  | none => exact hb
  | some v =>
      cases v with
      | str d =>
          by_cases hd : d = ""
          · simpa [hd] using hb
          · simp [hd, isOptionalT]
      | null => exact hb
      | boolean b => exact hb
      | num n => exact hb
      | arr xs => exact hb
      | obj fs => exact hb

/-- A converted type is marked optional exactly when the `required`
flag passed to `openApiToZod` is false — the `.optional()` wrapper is
applied if and only if the flag says so, whatever the schema. -/
theorem openApiToZod_optional :
    ∀ (fuel : Nat) (schema spec : JsValue) (required : Bool) (t : ZodTy),
      openApiToZod fuel schema spec required = .ok t → isOptionalT t = !required := by
  intro fuel schema spec required t h
  cases fuel with
  | zero => exact absurd h (by simp [openApiToZod])
  | succ fuel =>
      rw [openApiToZod] at h
      simp only [Bind.bind] at h
      obtain ⟨ro, hro, h2⟩ := except_bind_ok _ _ _ h
      cases ro with
      | none => exact absurd h2 (by simp)
      | some resolved =>
          simp only at h2
          obtain ⟨base, hbase, h3⟩ := except_bind_ok _ _ _ h2
          have hb : isOptionalT base = false := by
            split at hbase
            · split at hbase
              · exact (Except.ok.inj hbase) ▸ rfl
              · exact (Except.ok.inj hbase) ▸ rfl
            · exact (Except.ok.inj hbase) ▸ rfl
            · exact (Except.ok.inj hbase) ▸ rfl
            · exact (Except.ok.inj hbase) ▸ rfl
            · split at hbase
              · split at hbase
                · obtain ⟨it, _, hit⟩ := except_bind_ok _ _ _ hbase
                  exact (Except.ok.inj hit) ▸ rfl
                · exact (Except.ok.inj hbase) ▸ rfl
              · exact (Except.ok.inj hbase) ▸ rfl
            · split at hbase
              · split at hbase
                · obtain ⟨sh, _, hsh⟩ := except_bind_ok _ _ _ hbase
                  exact (Except.ok.inj hsh) ▸ rfl
                · exact (Except.ok.inj hbase) ▸ rfl
              · exact (Except.ok.inj hbase) ▸ rfl
            · exact (Except.ok.inj hbase) ▸ rfl
          have ht := Except.ok.inj h3
          subst ht
          cases required with
          | false => rfl
          | true =>
              simp only [Bool.not_true, if_pos]
              exact isOptionalT_withDesc resolved base hb

/-- Removing an outermost `.optional()` wrapper. -/
def stripOptionalT : ZodTy → ZodTy
  | .optionalT t => t
  | t => t

/-- Removing an outermost `.describe()` wrapper. -/
def stripDescribeT : ZodTy → ZodTy
  | .describeT _ t => t
  | t => t

/-- Every field of a successfully-built shape comes from the property
entry of the same name, converted with the required flag computed from
the GOVERNING `required` list. -/
theorem zodShapeGo_mem (f : JsValue → Bool → Except String ZodTy) (reqs : List JsValue) :
    ∀ (pe : List (String × JsValue)) (shape : List (String × ZodTy)),
      zodShapeGo f reqs pe = .ok shape →
      ∀ k ty, (k, ty) ∈ shape →
        ∃ ps, (k, ps) ∈ pe ∧ f ps (valIncludesStr reqs k) = .ok ty := by
  intro pe
  induction pe with
  | nil =>
      intro shape h k ty hm
      rw [zodShapeGo] at h
      cases h
      simp at hm
  | cons kv rest ih =>
      obtain ⟨key, psch⟩ := kv
      intro shape h k ty hm
      rw [zodShapeGo] at h
      simp only [Bind.bind] at h
      obtain ⟨t, ht, h2⟩ := except_bind_ok _ _ _ h
      obtain ⟨tail, htail, h3⟩ := except_bind_ok _ _ _ h2
      have hs := Except.ok.inj h3
      subst hs
      rcases List.mem_cons.mp hm with he | hm2
      · have hk : k = key := congrArg Prod.fst he
        have hty : ty = t := congrArg Prod.snd he
        subst hk
        subst hty
        exact ⟨psch, by simp, ht⟩
      · obtain ⟨ps, hps, hf⟩ := ih tail htail k ty hm2
        exact ⟨ps, by simp [hps], hf⟩

/-- The object case of `openApiToZod`: the produced type is an object
shape (under the describe/optional wrappers), built by converting the
node's own properties against the node's OWN `required` list, and each
field is optional exactly when its name is absent from that list. -/
theorem openApiToZod_object_shape (fuel : Nat) (schema spec : JsValue) (required : Bool)
    (t : ZodTy) (resolved : JsValue) (pe : List (String × JsValue))
    (h : openApiToZod (fuel + 1) schema spec required = .ok t)
    (hres : resolveSchema schema spec = .ok (some resolved))
    (htype : jsLookup resolved "type" = some (.str "object"))
    (hprops : jsLookup resolved "properties" = some (.obj pe)) :
    ∃ shape, stripDescribeT (stripOptionalT t) = ZodTy.objT shape ∧
      zodShapeGo (fun v r => openApiToZod fuel v spec r) (requiredArrOf resolved) pe
        = .ok shape ∧
      ∀ k ty, (k, ty) ∈ shape →
        isOptionalT ty = !(valIncludesStr (requiredArrOf resolved) k) := by
  rw [openApiToZod] at h
  simp only [Bind.bind] at h
  obtain ⟨ro, hro, h2⟩ := except_bind_ok _ _ _ h
  rw [hres] at hro
  have hro2 := Except.ok.inj hro
  subst hro2
  simp only at h2
  obtain ⟨base, hbase, h3⟩ := except_bind_ok _ _ _ h2
  rw [htype] at hbase
  simp only at hbase
  rw [hprops] at hbase
  simp only [jsTruthy, objEntries, if_pos] at hbase
  obtain ⟨shape, hsh, hb2⟩ := except_bind_ok _ _ _ hbase
  have hb3 := Except.ok.inj hb2
  subst hb3
  have ht := Except.ok.inj h3
  subst ht
  refine ⟨shape, ?_, hsh, ?_⟩
  · cases required with
    | true =>
        simp only [if_pos]
        cases hld : jsLookup resolved "description" with
        | none => rfl
        | some v =>
            cases v with
            | str d =>
                by_cases hd : d = ""
                · simp [hd, stripOptionalT, stripDescribeT]
                · simp [hd, stripOptionalT, stripDescribeT]
            | null => rfl
            | boolean b => rfl
            | num n => rfl
            | arr xs => rfl
            | obj fs => rfl
    | false =>
        simp only [Bool.false_eq_true, if_false]
        cases hld : jsLookup resolved "description" with
        | none => rfl
        | some v =>
            cases v with
            | str d =>
                by_cases hd : d = ""
                · simp [hd, stripOptionalT, stripDescribeT]
                · simp [hd, stripOptionalT, stripDescribeT]
            | null => rfl
            | boolean b => rfl
            | num n => rfl
            | arr xs => rfl
            | obj fs => rfl
  · intro k ty hm
    obtain ⟨ps, _, hf⟩ := zodShapeGo_mem _ _ pe shape hsh k ty hm
    exact openApiToZod_optional fuel ps spec _ ty hf

/-- Top level of `buildZodSchemaFromOperation`: every field of the
shape is optional exactly when its name is absent from the resolved
body schema's own `required` list. -/
theorem buildZod_optional (fuel : Nat) (op spec : JsValue) (shape : List (String × ZodTy))
    (sv resolved : JsValue)
    (h : buildZodSchemaFromOperation fuel op spec = .ok shape)
    (hsv : bodySchemaOf op = some sv) (htr : jsTruthy sv = true)
    (hres : resolveSchema sv spec = .ok (some resolved)) :
    ∀ k ty, (k, ty) ∈ shape →
      isOptionalT ty = !(valIncludesStr (requiredArrOf resolved) k) := by
  unfold buildZodSchemaFromOperation at h
  rw [hsv] at h
  simp only at h
  rw [htr] at h
  simp only [if_pos] at h
  simp only [Bind.bind] at h
  obtain ⟨ro, hro, h2⟩ := except_bind_ok _ _ _ h
  rw [hres] at hro
  have hro2 := Except.ok.inj hro
  subst hro2
  simp only at h2
  intro k ty hm
  obtain ⟨ps, _, hf⟩ := zodShapeGo_mem _ _ _ _ h2 k ty hm
  exact openApiToZod_optional fuel ps spec _ ty hf

/-- Claim C6: in the typed parameter projection, a field is marked
optional if and only if its name is absent from its IMMEDIATE parent's
`required` list, at every nesting depth: (1) `openApiToZod` wraps its
result in `.optional()` exactly when the required flag it received is
false; (2) an object node converts its properties against its OWN
`required` list, each produced field being optional iff absent from
that list (and since this holds for every schema node at any position,
it holds at every depth); (3) the same holds for the top level built by
`buildZodSchemaFromOperation`. -/
theorem zod_required_at_every_depth :
    (∀ (fuel : Nat) (schema spec : JsValue) (required : Bool) (t : ZodTy),
      openApiToZod fuel schema spec required = .ok t → isOptionalT t = !required) ∧
    (∀ (fuel : Nat) (schema spec : JsValue) (required : Bool) (t : ZodTy)
        (resolved : JsValue) (pe : List (String × JsValue)),
      openApiToZod (fuel + 1) schema spec required = .ok t →
      resolveSchema schema spec = .ok (some resolved) →
      jsLookup resolved "type" = some (.str "object") →
      jsLookup resolved "properties" = some (.obj pe) →
      ∃ shape, stripDescribeT (stripOptionalT t) = ZodTy.objT shape ∧
        ∀ k ty, (k, ty) ∈ shape →
          isOptionalT ty = !(valIncludesStr (requiredArrOf resolved) k)) ∧
    (∀ (fuel : Nat) (op spec : JsValue) (shape : List (String × ZodTy))
        (sv resolved : JsValue),
      buildZodSchemaFromOperation fuel op spec = .ok shape →
      bodySchemaOf op = some sv → jsTruthy sv = true →
      resolveSchema sv spec = .ok (some resolved) →
      ∀ k ty, (k, ty) ∈ shape →
        isOptionalT ty = !(valIncludesStr (requiredArrOf resolved) k)) := by
  refine ⟨openApiToZod_optional, ?_, buildZod_optional⟩
  intro fuel schema spec required t resolved pe h hres htype hprops
  obtain ⟨shape, h1, _, h3⟩ :=
    openApiToZod_object_shape fuel schema spec required t resolved pe h hres htype hprops
  exact ⟨shape, h1, h3⟩

/-- Witness for claim C6, at a concrete two-level schema: the nested
object's own `required: ["x"]` governs its children (`x` required, `y`
optional) independently of the outer `required: ["a"]` (`a` required,
`b` optional), and a top-level build marks `q` required. -/
theorem zod_required_at_every_depth_witness :
    (∃ shape,
      stripDescribeT (stripOptionalT (ZodTy.objT
        [("a", ZodTy.objT [("x", ZodTy.strT), ("y", ZodTy.optionalT ZodTy.strT)]),
         ("b", ZodTy.optionalT ZodTy.numT)])) = ZodTy.objT shape ∧
      ∀ k ty, (k, ty) ∈ shape →
        isOptionalT ty = !(valIncludesStr (requiredArrOf (.obj [("type", .str "object"),
          ("properties", .obj
            [("a", .obj [("type", .str "object"),
              ("properties", .obj
                [("x", .obj [("type", .str "string")]),
                 ("y", .obj [("type", .str "string")])]),
              ("required", .arr [.str "x"])]),
             ("b", .obj [("type", .str "number")])]),
          ("required", .arr [.str "a"])])) k)) ∧
    isOptionalT (ZodTy.optionalT ZodTy.strT) = !false ∧
    isOptionalT ZodTy.strT =
      !(valIncludesStr (requiredArrOf (.obj [("type", .str "object"),
        ("properties", .obj [("q", .obj [("type", .str "string")])]),
        ("required", .arr [.str "q"])])) "q") := by
  refine ⟨?_, ?_, ?_⟩
  · exact zod_required_at_every_depth.2.1 4
      (.obj [("type", .str "object"),
        ("properties", .obj
          [("a", .obj [("type", .str "object"),
            ("properties", .obj
              [("x", .obj [("type", .str "string")]),
               ("y", .obj [("type", .str "string")])]),
            ("required", .arr [.str "x"])]),
           ("b", .obj [("type", .str "number")])]),
        ("required", .arr [.str "a"])])
      (.obj []) true
      (ZodTy.objT
        [("a", ZodTy.objT [("x", ZodTy.strT), ("y", ZodTy.optionalT ZodTy.strT)]),
         ("b", ZodTy.optionalT ZodTy.numT)])
      (.obj [("type", .str "object"),
        ("properties", .obj
          [("a", .obj [("type", .str "object"),
            ("properties", .obj
              [("x", .obj [("type", .str "string")]),
               ("y", .obj [("type", .str "string")])]),
            ("required", .arr [.str "x"])]),
           ("b", .obj [("type", .str "number")])]),
        ("required", .arr [.str "a"])])
      [("a", .obj [("type", .str "object"),
        ("properties", .obj
          [("x", .obj [("type", .str "string")]),
           ("y", .obj [("type", .str "string")])]),
        ("required", .arr [.str "x"])]),
       ("b", .obj [("type", .str "number")])]
      rfl rfl rfl rfl
  · exact zod_required_at_every_depth.1 3 (.obj [("type", .str "string")]) (.obj [])
      false (ZodTy.optionalT ZodTy.strT) rfl
  · exact zod_required_at_every_depth.2.2 3
      (.obj [("requestBody", .obj [("content", .obj [("application/json",
        .obj [("schema", .obj [("type", .str "object"),
          ("properties", .obj [("q", .obj [("type", .str "string")])]),
          ("required", .arr [.str "q"])])])])])])
      (.obj []) [("q", ZodTy.strT)]
      (.obj [("type", .str "object"),
        ("properties", .obj [("q", .obj [("type", .str "string")])]),
        ("required", .arr [.str "q"])])
      (.obj [("type", .str "object"),
        ("properties", .obj [("q", .obj [("type", .str "string")])]),
        ("required", .arr [.str "q"])])
      rfl rfl rfl rfl "q" ZodTy.strT (by simp)
